import Mathlib

/-!
# Shallow embedding of the cosmic-text line model

This file embeds, in Lean 4, the per-paragraph line model of the repository:
`BufferLine` with its two-tier shape/layout cache discipline
(`src/buffer_line.rs`), the visible-run extraction iterator `LayoutRunIter`,
the selection-highlight query `LayoutRun::highlight`, and the text-decoration
renderer (`src/render.rs`).

Floating-point quantities are modelled by rational numbers; Rust strings are
modelled as lists of characters (one element per byte-indexed unit, so that
`split_off` at a char boundary is a list split).  Types of the containing
library that are not part of the excerpt (`Cached`, `AttrsList`, `LineEnding`,
`ShapeLine`, collaborator functions of `FontSystem`, `Cursor`) are modelled
from the specification, as documented on each definition.
-/

namespace CosmicText

/-- Rust string contents: one list element per byte-indexed text unit, so that
a `split_off` at a char-boundary byte index is a split of the list. -/
abbrev Str : Type := List Char

/-- Modelled from the spec: line-ending kind (none/LF/CRLF). -/
inductive LineEnding where
  | none
  | lf
  | crlf
deriving DecidableEq, Repr

/-- Modelled from the spec: opaque style attributes (font family, size or
line-height override, color, weight, italic, decoration descriptor), which the
line model only compares for equality and passes through; represented by an
opaque identifier. -/
structure Attrs where
  tag : Nat
deriving DecidableEq, Repr

/-- Modelled from the spec: ordered, non-overlapping set of (byte-range,
attributes) pairs over one paragraph's text, with a line-level default for the
gaps.  A span `(s, e, a)` styles the half-open range `[s, e)`. -/
structure AttrsList where
  defaults : Attrs
  spans : List (Nat × Nat × Attrs)
deriving DecidableEq, Repr

namespace AttrsList

/-- Fresh attributes list with only a default. -/
def new (a : Attrs) : AttrsList := ⟨a, []⟩

/-- Modelled from the spec: the parts of one span lying outside `[s, e)`. -/
def clipSpan (s e : Nat) (sp : Nat × Nat × Attrs) : List (Nat × Nat × Attrs) :=
  let (s0, e0, a0) := sp
  (if s0 < min e0 s then [(s0, min e0 s, a0)] else []) ++
    (if max s0 e < e0 then [(max s0 e, e0, a0)] else [])

/-- Modelled from the spec: insert a span keeping spans ordered by start. -/
def insertSorted (sp : Nat × Nat × Attrs) : List (Nat × Nat × Attrs) →
    List (Nat × Nat × Attrs)
  | [] => [sp]
  | hd :: tl =>
    if sp.1 ≤ hd.1 then sp :: hd :: tl else hd :: insertSorted sp tl

/-- Modelled from the spec: add a span over `[s, e)`, splitting and clipping
any overlapping spans so that ranges stay sorted and non-overlapping. -/
def add_span (al : AttrsList) (s e : Nat) (a : Attrs) : AttrsList :=
  if s < e then
    { al with spans := insertSorted (s, e, a) (al.spans.flatMap (clipSpan s e)) }
  else al

/-- Modelled from the spec: partition the spans at byte `index`; spans of the
tail are renumbered (offsets shifted left by `index`), a span straddling the
cut is split.  Returns (head, tail); both keep the same defaults. -/
def split_off (al : AttrsList) (index : Nat) : AttrsList × AttrsList :=
  let head := al.spans.flatMap fun (s, e, a) =>
    if s < min e index then [(s, min e index, a)] else []
  let tail := al.spans.flatMap fun (s, e, a) =>
    if max s index < e then [(max s index - index, e - index, a)] else []
  (⟨al.defaults, head⟩, ⟨al.defaults, tail⟩)

/-- The explicit spans, in order. -/
def spans_iter (al : AttrsList) : List (Nat × Nat × Attrs) := al.spans

end AttrsList

/-- Modelled from the spec: shaping mode (simple vs. full bidi/script-aware). -/
inductive Shaping where
  | basic
  | advanced
deriving DecidableEq, Repr

/-- Modelled from the spec: optional alignment override values. -/
inductive Align where
  | left
  | right
  | center
  | justified
deriving DecidableEq, Repr

/-- Modelled from the spec: wrap mode. -/
inductive Wrap where
  | none
  | glyph
  | word
  | wordOrGlyph
deriving DecidableEq, Repr

/-- Modelled from the spec: ellipsize mode. -/
inductive Ellipsize where
  | none
  | atEnd
deriving DecidableEq, Repr

/-- Modelled from the spec: hinting mode. -/
inductive Hinting where
  | disabled
  | enabled
deriving DecidableEq, Repr

/-- Color, a 32-bit RGBA word treated opaquely. -/
abbrev Color : Type := Nat

/-- Modelled from the spec: the three-state memoization slot used for the
shape and layout caches — empty / retained-but-stale / valid. -/
inductive Cached (α : Type) where
  | empty
  | unused (v : α)
  | used (v : α)
deriving DecidableEq, Repr

namespace Cached

/-- The cached value, when valid. -/
def get : Cached α → Option α
  | used v => some v
  | _ => none

/-- True when the slot holds no valid value (empty or stale). -/
def is_unused : Cached α → Bool
  | used _ => false
  | _ => true

/-- Invalidate, retaining the backing storage for reuse. -/
def set_unused : Cached α → Cached α
  | used v => unused v
  | c => c

/-- Store a freshly computed valid value. -/
def set_used (_c : Cached α) (v : α) : Cached α := used v

/-- Take the retained stale storage, leaving the slot empty; the slot is
unchanged when it holds no stale value. -/
def take_unused : Cached α → Option α × Cached α
  | unused v => (some v, empty)
  | c => (none, c)

end Cached

/-- Modelled from the spec: per-feature decoration thickness/offset metrics,
scaled by the glyph's font size at render time. -/
structure DecorationMetrics where
  thickness : ℚ
  offset : ℚ
deriving DecidableEq, Repr

/-- Underline style of a decoration descriptor. -/
inductive UnderlineStyle where
  | none
  | single
  | double
deriving DecidableEq, Repr

/-- Modelled from the spec: the feature flags and explicit colors of a
decoration descriptor. -/
structure TextDecoration where
  underline : UnderlineStyle
  underline_color_opt : Option Color
  strikethrough : Bool
  strikethrough_color_opt : Option Color
  overline : Bool
  overline_color_opt : Option Color
deriving DecidableEq, Repr

/-- Modelled from the spec: the per-glyph decoration descriptor — feature
flags plus the underline and strikethrough metrics. -/
structure DecorationData where
  text_decoration : TextDecoration
  underline_metrics : DecorationMetrics
  strikethrough_metrics : DecorationMetrics
deriving DecidableEq, Repr

/-- Modelled from the spec: decoration span boundaries of a layout line,
treated opaquely by the code in the excerpt. -/
structure DecorationSpan where
  tag : Nat
deriving DecidableEq, Repr

/-- A positioned glyph of a layout line, with the fields the excerpt reads:
text range, x position and width, font size, optional explicit color and the
optional decoration descriptor. -/
structure LayoutGlyph where
  start : Nat
  end_ : Nat
  x : ℚ
  w : ℚ
  font_size : ℚ
  color_opt : Option Color
  decoration_data : Option DecorationData
deriving DecidableEq, Repr

/-- One wrapped visual line, with the fields the excerpt reads: glyphs,
decoration spans, optional explicit line-height override, max ascent/descent
and total width. -/
structure LayoutLine where
  glyphs : List LayoutGlyph
  decorations : List DecorationSpan
  line_height_opt : Option ℚ
  max_ascent : ℚ
  max_descent : ℚ
  w : ℚ
deriving DecidableEq, Repr

/-- Modelled from the spec: output of shaping — positioned glyph clusters
(kept opaque) and the paragraph-direction flag. -/
structure ShapeLine where
  rtl : Bool
  clusters : List Nat
deriving DecidableEq, Repr

/-- An empty shape line, the fresh storage used when no stale storage can be
reused. -/
def ShapeLine.empty : ShapeLine := ⟨false, []⟩

/-- Modelled from the spec: the opaque shaping and wrapping collaborators as
pure functions.  `build` receives the reused `ShapeLine` storage and returns
the rebuilt shape; `layout_to_buffer` receives the reused layout buffer and
returns the wrapped layout lines. -/
structure FontSystem where
  build : Str → AttrsList → Shaping → Nat → ShapeLine → ShapeLine
  layout_to_buffer : ShapeLine → ℚ → Option ℚ → Wrap → Ellipsize →
    Option Align → List LayoutLine → Option ℚ → Hinting → List LayoutLine

/-- A line (or paragraph) of text that is shaped and laid out. -/
structure BufferLine where
  text : Str
  ending : LineEnding
  attrs_list : AttrsList
  align : Option Align
  shape_opt : Cached ShapeLine
  layout_opt : Cached (List LayoutLine)
  shaping : Shaping
  metadata : Option Nat
deriving DecidableEq, Repr

namespace BufferLine

/-- Create a new line with the given text and attributes list. -/
def new (text : Str) (ending : LineEnding) (attrs_list : AttrsList)
    (shaping : Shaping) : BufferLine :=
  { text := text
    ending := ending
    attrs_list := attrs_list
    align := none
    shape_opt := Cached.empty
    layout_opt := Cached.empty
    shaping := shaping
    metadata := none }

/-- Resets the current line with new internal values, keeping cache storage. -/
def reset_new (l : BufferLine) (text : Str) (ending : LineEnding)
    (attrs_list : AttrsList) (shaping : Shaping) : BufferLine :=
  { l with
    text := text
    ending := ending
    attrs_list := attrs_list
    align := none
    shape_opt := l.shape_opt.set_unused
    layout_opt := l.layout_opt.set_unused
    shaping := shaping
    metadata := none }

/-- Reset only layout cache. -/
def reset_layout (l : BufferLine) : BufferLine :=
  { l with layout_opt := l.layout_opt.set_unused }

/-- Reset shaping and layout caches. -/
def reset_shaping (l : BufferLine) : BufferLine :=
  reset_layout { l with shape_opt := l.shape_opt.set_unused }

/-- Reset shaping, layout, and metadata caches. -/
def reset (l : BufferLine) : BufferLine :=
  reset_shaping { l with metadata := none }

/-- Set text and attributes list; resets shape and layout when anything
differs.  Returns (whether the line was reset, updated line). -/
def set_text (l : BufferLine) (text : Str) (ending : LineEnding)
    (attrs_list : AttrsList) : Bool × BufferLine :=
  if text ≠ l.text ∨ ending ≠ l.ending ∨ attrs_list ≠ l.attrs_list then
    (true, reset { l with text := text, ending := ending, attrs_list := attrs_list })
  else
    (false, l)

/-- Set line ending; resets shape and layout when it differs. -/
def set_ending (l : BufferLine) (ending : LineEnding) : Bool × BufferLine :=
  if ending ≠ l.ending then
    (true, reset_shaping { l with ending := ending })
  else
    (false, l)

/-- Set attributes list; resets shape and layout when it differs. -/
def set_attrs_list (l : BufferLine) (attrs_list : AttrsList) : Bool × BufferLine :=
  if attrs_list ≠ l.attrs_list then
    (true, reset_shaping { l with attrs_list := attrs_list })
  else
    (false, l)

/-- Set the text alignment; resets layout when it differs. -/
def set_align (l : BufferLine) (align : Option Align) : Bool × BufferLine :=
  if align ≠ l.align then
    (true, reset_layout { l with align := align })
  else
    (false, l)

/-- Append `other` at the end of this line: concatenates text, adopts
`other`'s line ending, carries the appended text's default formatting as an
explicit span when the defaults differ, re-offsets `other`'s spans, and always
resets the caches. -/
def append (l other : BufferLine) : BufferLine :=
  let len := l.text.length
  let text := l.text ++ other.text
  let ending := other.ending
  let al0 :=
    if other.attrs_list.defaults ≠ l.attrs_list.defaults then
      l.attrs_list.add_span len (len + other.text.length) other.attrs_list.defaults
    else
      l.attrs_list
  let al := other.attrs_list.spans_iter.foldl
    (fun acc sp => acc.add_span (sp.1 + len) (sp.2.1 + len) sp.2.2) al0
  reset { l with text := text, ending := ending, attrs_list := al }

/-- Split off a new line at `index`: the head keeps the first `index` units
with its ending cleared, the tail gets the rest together with the original
ending, alignment and shaping mode.  Returns (head, tail). -/
def split_off (l : BufferLine) (index : Nat) : BufferLine × BufferLine :=
  let text := l.text.drop index
  let (headAttrs, tailAttrs) := l.attrs_list.split_off index
  let self := reset { l with text := l.text.take index, attrs_list := headAttrs }
  let newLine := { new text self.ending tailAttrs self.shaping with align := self.align }
  ({ self with ending := LineEnding.none }, newLine)

/-- Shape the line, caching the result; recomputes only when the shape cache
is unused, reusing retained storage. -/
def shape (fs : FontSystem) (tab_width : Nat) (l : BufferLine) :
    ShapeLine × BufferLine :=
  let l :=
    if l.shape_opt.is_unused then
      let (stale, shapeSlot) := l.shape_opt.take_unused
      let line := fs.build l.text l.attrs_list l.shaping tab_width
        (stale.getD ShapeLine.empty)
      { l with shape_opt := shapeSlot.set_used line,
               layout_opt := l.layout_opt.set_unused }
    else l
  ((l.shape_opt.get).getD ShapeLine.empty, l)

/-- Layout the line, caching the result; recomputes (shaping first) only when
the layout cache is unused, reusing retained storage. -/
def layout (fs : FontSystem) (font_size : ℚ) (width_opt : Option ℚ)
    (wrap : Wrap) (ellipsize : Ellipsize) (match_mono_width : Option ℚ)
    (tab_width : Nat) (hinting : Hinting) (l : BufferLine) :
    List LayoutLine × BufferLine :=
  let l :=
    if l.layout_opt.is_unused then
      let align := l.align
      let (stale, layoutSlot) := l.layout_opt.take_unused
      let buf := stale.getD []
      let (shapeLine, l1) := shape fs tab_width { l with layout_opt := layoutSlot }
      let lls := fs.layout_to_buffer shapeLine font_size width_opt wrap ellipsize
        align buf match_mono_width hinting
      { l1 with layout_opt := l1.layout_opt.set_used lls }
    else l
  ((l.layout_opt.get).getD [], l)

/-- Set line metadata; stored until the next line reset. -/
def set_metadata (l : BufferLine) (metadata : Nat) : BufferLine :=
  { l with metadata := some metadata }

end BufferLine

/-- Modelled from the spec: whether a cursor at a glyph boundary leans toward
the preceding or the following text. -/
inductive Affinity where
  | before
  | after
deriving DecidableEq, Repr

/-- Modelled from the spec: a text-position cursor — line index, byte index
and affinity. -/
structure Cursor where
  line : Nat
  index : Nat
  affinity : Affinity
deriving DecidableEq, Repr

/-- Modelled from the spec: cursors compare lexicographically by line, then
byte index, then affinity with `before < after`. -/
def Cursor.le (a b : Cursor) : Bool :=
  if a.line ≠ b.line then a.line < b.line
  else if a.index ≠ b.index then a.index < b.index
  else
    match a.affinity, b.affinity with
    | Affinity.after, Affinity.before => false
    | _, _ => true

/-- A line of visible text for rendering. -/
structure LayoutRun where
  line_i : Nat
  text : Str
  rtl : Bool
  glyphs : List LayoutGlyph
  decorations : List DecorationSpan
  line_y : ℚ
  line_top : ℚ
  line_height : ℚ
  line_w : ℚ
deriving DecidableEq, Repr

namespace LayoutRun

/-- Cursor at the visual left edge of a glyph. -/
def cursor_from_glyph_left (run : LayoutRun) (glyph : LayoutGlyph) : Cursor :=
  if run.rtl then ⟨run.line_i, glyph.end_, Affinity.before⟩
  else ⟨run.line_i, glyph.start, Affinity.after⟩

/-- Cursor at the visual right edge of a glyph. -/
def cursor_from_glyph_right (run : LayoutRun) (glyph : LayoutGlyph) : Cursor :=
  if run.rtl then ⟨run.line_i, glyph.start, Affinity.after⟩
  else ⟨run.line_i, glyph.end_, Affinity.before⟩

/-- The glyph loop of `highlight`: accumulates the first recorded x and the
last recorded x over the run's glyphs. -/
def highlightLoop (run : LayoutRun) (cursor_start cursor_end : Cursor)
    (glyphs : List LayoutGlyph) (acc : Option ℚ × Option ℚ) : Option ℚ × Option ℚ :=
  match glyphs with
  | [] => acc
  | glyph :: rest =>
    let rtl_factor : ℚ := if run.rtl then 1 else 0
    let ltr_factor : ℚ := 1 - rtl_factor
    let acc :=
      let c := run.cursor_from_glyph_left glyph
      if Cursor.le cursor_start c ∧ Cursor.le c cursor_end then
        let v := glyph.x + glyph.w * rtl_factor
        ((acc.1).getD v |> some, some v)
      else acc
    let acc :=
      let c := run.cursor_from_glyph_right glyph
      if Cursor.le cursor_start c ∧ Cursor.le c cursor_end then
        let v := glyph.x + glyph.w * ltr_factor
        ((acc.1).getD v |> some, some v)
      else acc
    highlightLoop run cursor_start cursor_end rest acc

/-- The pixel span `(x_left, width)` of the highlighted area between
`cursor_start` and `cursor_end` within this run; `Except.error` models the
`expect` panic of the source. -/
def highlight (run : LayoutRun) (cursor_start cursor_end : Cursor) :
    Except String (Option (ℚ × ℚ)) :=
  match highlightLoop run cursor_start cursor_end run.glyphs (none, none) with
  | (none, _) => Except.ok none
  | (some _, none) => Except.error "end of cursor not found"
  | (some a, some b) =>
    let p := if a < b then (a, b) else (b, a)
    Except.ok (some (p.1, p.2 - p.1))

end LayoutRun

/-- An iterator of visible text lines; the state of `LayoutRunIter`. -/
structure LayoutRunIter where
  lines : List BufferLine
  height_opt : Option ℚ
  line_height : ℚ
  scroll : ℚ
  line_i : Nat
  layout_i : Nat
  total_height : ℚ
  line_top : ℚ
deriving Repr

namespace LayoutRunIter

/-- Construct the iterator at paragraph line `start`. -/
def new (lines : List BufferLine) (height_opt : Option ℚ) (line_height : ℚ)
    (scroll : ℚ) (start : Nat) : LayoutRunIter :=
  { lines := lines
    height_opt := height_opt
    line_height := line_height
    scroll := scroll
    line_i := start
    layout_i := 0
    total_height := 0
    line_top := 0 }

/-- Outcome of the inner while loop of `next` over one paragraph line's
layout lines. -/
inductive InnerStep where
  | yield (run : LayoutRun) (it : LayoutRunIter)
  | stop
  | nextLine (it : LayoutRunIter)

/-- The inner while loop of `next`: walks the remaining layout lines `rest`
of the current paragraph `line`, skipping lines fully above the viewport,
stopping hard at the viewport-height cutoff, and otherwise yielding a run. -/
def innerNext (line : BufferLine) (rtl : Bool) (it : LayoutRunIter) :
    List LayoutLine → InnerStep
  | [] => InnerStep.nextLine it
  | ll :: rest =>
    let it := { it with layout_i := it.layout_i + 1 }
    let line_height := ll.line_height_opt.getD it.line_height
    let it := { it with total_height := it.total_height + line_height }
    let line_top := it.line_top - it.scroll
    let glyph_height := ll.max_ascent + ll.max_descent
    let centering_offset := (line_height - glyph_height) / 2
    let line_y := line_top + centering_offset + ll.max_ascent
    if (it.height_opt.map fun height => decide (line_y - ll.max_ascent > height)).getD
        false then
      InnerStep.stop
    else
      let it := { it with line_top := it.line_top + line_height }
      if line_y + ll.max_descent < 0 then
        innerNext line rtl it rest
      else
        InnerStep.yield
          { line_i := it.line_i
            text := line.text
            rtl := rtl
            glyphs := ll.glyphs
            decorations := ll.decorations
            line_y := line_y
            line_top := line_top
            line_height := line_height
            line_w := ll.w } it

/-- The outer while loop of `next`: walks the remaining paragraph lines,
requiring a valid shape and layout cache on each. -/
def outerNext (it : LayoutRunIter) : List BufferLine → Option (LayoutRun × LayoutRunIter)
  | [] => none
  | line :: restLines =>
    match line.shape_opt.get with
    | none => none
    | some shape =>
      match line.layout_opt.get with
      | none => none
      | some layout =>
        match innerNext line shape.rtl it (layout.drop it.layout_i) with
        | InnerStep.yield run it' => some (run, it')
        | InnerStep.stop => none
        | InnerStep.nextLine it' =>
          outerNext { it' with line_i := it'.line_i + 1, layout_i := 0 } restLines

/-- One step of the iterator. -/
def next (it : LayoutRunIter) : Option (LayoutRun × LayoutRunIter) :=
  outerNext it (it.lines.drop it.line_i)

/-- Collect up to `fuel` runs from the iterator. -/
def collect : Nat → LayoutRunIter → List LayoutRun
  | 0, _ => []
  | fuel + 1, it =>
    match next it with
    | none => []
    | some (run, it') => run :: collect fuel it'

end LayoutRunIter

/-- Rust `as i32` on a float: truncation toward zero, saturating at the i32
bounds. -/
def ratToI32 (q : ℚ) : Int :=
  max (-(2 ^ 31)) (min (2 ^ 31 - 1) (Int.tdiv q.num q.den))

/-- Rust `as u32` on a float: truncation toward zero, saturating at the u32
bounds. -/
def ratToU32 (q : ℚ) : Nat :=
  if q ≤ 0 then 0 else min (2 ^ 32 - 1) (Rat.floor q).toNat

/-- Rust `f32::ceil`. -/
def ratCeil (q : ℚ) : ℚ := ((Int.ceil q : ℤ) : ℚ)

/-- One `rectangle(x, y, w, h, color)` call issued to the abstract drawing
capability. -/
structure Rect where
  x : Int
  y : Int
  w : Nat
  h : Nat
  color : Color
deriving DecidableEq, Repr

/-- Flush one decoration group: emit the underline, strikethrough and
overline rectangles for a maximal run of glyphs sharing one present
decoration descriptor.  Returns the rectangle calls in issue order. -/
def drawDecorationGroup (run : LayoutRun) (glyphs : List LayoutGlyph)
    (default_color : Color) : List Rect :=
  match glyphs with
  | [] => []
  | first :: rest =>
    let last := rest.getLastD first
    match first.decoration_data with
    | none => []
    | some deco =>
      let td := deco.text_decoration
      let font_size := first.font_size
      let x_start := first.x
      let x_end := last.x + last.w
      let width := x_end - x_start
      if width ≤ 0 then []
      else
        let w := ratToU32 width
        if w = 0 then []
        else
          let underlineRects :=
            match td.underline with
            | UnderlineStyle.none => []
            | UnderlineStyle.single =>
              let color := (td.underline_color_opt.or first.color_opt).getD default_color
              let thickness := ratCeil (max (deco.underline_metrics.thickness * font_size) 1)
              let y := run.line_y - deco.underline_metrics.offset * font_size
              [⟨ratToI32 x_start, ratToI32 y, w, ratToU32 thickness, color⟩]
            | UnderlineStyle.double =>
              let color := (td.underline_color_opt.or first.color_opt).getD default_color
              let thickness : ℚ := ratCeil (max (deco.underline_metrics.thickness * font_size) 1)
              let gap := thickness
              let y := run.line_y - deco.underline_metrics.offset * font_size
              [⟨ratToI32 x_start, ratToI32 y, w, ratToU32 thickness, color⟩,
               ⟨ratToI32 x_start, ratToI32 (y + thickness + gap), w, ratToU32 thickness, color⟩]
          let strikeRects :=
            if td.strikethrough then
              let color := (td.strikethrough_color_opt.or first.color_opt).getD default_color
              let thickness := ratCeil (max (deco.strikethrough_metrics.thickness * font_size) 1)
              let y := run.line_y - deco.strikethrough_metrics.offset * font_size
              [(⟨ratToI32 x_start, ratToI32 y, w, ratToU32 thickness, color⟩ : Rect)]
            else []
          let overlineRects :=
            if td.overline then
              let color := (td.overline_color_opt.or first.color_opt).getD default_color
              let thickness := ratCeil (max (deco.underline_metrics.thickness * font_size) 1)
              let y := run.line_top
              [(⟨ratToI32 x_start, ratToI32 y, w, ratToU32 thickness, color⟩ : Rect)]
            else []
          underlineRects ++ strikeRects ++ overlineRects

/-- The grouping loop of `render_decoration`: `cur` is the current group (in
storage order, nonempty only while a group with present decoration data is
open), `rest` the glyphs still to scan.  On a boundary the current group is
flushed through `drawDecorationGroup`. -/
def renderLoop (run : LayoutRun) (default_color : Color) :
    List LayoutGlyph → List LayoutGlyph → List Rect
  | cur, [] => drawDecorationGroup run cur default_color
  | cur, glyph :: rest =>
    match cur with
    | [] =>
      if glyph.decoration_data.isSome then
        renderLoop run default_color [glyph] rest
      else
        renderLoop run default_color [] rest
    | prev :: _ =>
      let prevGlyph := cur.getLastD prev
      if glyph.decoration_data ≠ prevGlyph.decoration_data then
        drawDecorationGroup run cur default_color ++
          (if glyph.decoration_data.isSome then
            renderLoop run default_color [glyph] rest
          else
            renderLoop run default_color [] rest)
      else
        renderLoop run default_color (cur ++ [glyph]) rest

/-- Draw the text decoration rectangles for a layout run: scan the glyphs in
storage order, grouping maximal runs of equal, present decoration data, and
flush each group through `drawDecorationGroup`. -/
def renderDecoration (run : LayoutRun) (default_color : Color) : List Rect :=
  if run.glyphs.isEmpty then []
  else renderLoop run default_color [] run.glyphs

/-- One public mutating operation on a `BufferLine`. -/
inductive Op where
  | set_text (text : Str) (ending : LineEnding) (attrs_list : AttrsList)
  | set_ending (ending : LineEnding)
  | set_attrs_list (attrs_list : AttrsList)
  | set_align (align : Option Align)
  | append (other : BufferLine)
  | split_off (index : Nat)
  | reset
  | reset_new (text : Str) (ending : LineEnding) (attrs_list : AttrsList) (shaping : Shaping)
  | reset_shaping
  | reset_layout
  | shape (fs : FontSystem) (tab_width : Nat)
  | layout (fs : FontSystem) (font_size : ℚ) (width_opt : Option ℚ) (wrap : Wrap)
      (ellipsize : Ellipsize) (match_mono_width : Option ℚ) (tab_width : Nat)
      (hinting : Hinting)
  | set_metadata (metadata : Nat)

/-- Effect of one public operation on the line's state (return values and the
tail line of `split_off` are projected away). -/
def applyOp : Op → BufferLine → BufferLine
  | Op.set_text t e al, l => (l.set_text t e al).2
  | Op.set_ending e, l => (l.set_ending e).2
  | Op.set_attrs_list al, l => (l.set_attrs_list al).2
  | Op.set_align a, l => (l.set_align a).2
  | Op.append other, l => l.append other
  | Op.split_off i, l => (l.split_off i).1
  | Op.reset, l => l.reset
  | Op.reset_new t e al sh, l => l.reset_new t e al sh
  | Op.reset_shaping, l => l.reset_shaping
  | Op.reset_layout, l => l.reset_layout
  | Op.shape fs tab, l => (BufferLine.shape fs tab l).2
  | Op.layout fs fsz w wr el mono tab h, l =>
    (BufferLine.layout fs fsz w wr el mono tab h l).2
  | Op.set_metadata m, l => l.set_metadata m

/-- The invalidating mutations as the claim enumerates them: `set_text`,
`set_ending`, `set_attrs_list`, `set_align` with differing input, and
`append`, `split_off`, `reset`, `reset_new`. -/
def invalidatingClaimed (op : Op) (l : BufferLine) : Bool :=
  match op with
  | Op.set_text t e al => decide (t ≠ l.text ∨ e ≠ l.ending ∨ al ≠ l.attrs_list)
  | Op.set_ending e => decide (e ≠ l.ending)
  | Op.set_attrs_list al => decide (al ≠ l.attrs_list)
  | Op.set_align a => decide (a ≠ l.align)
  | Op.append _ => true
  | Op.split_off _ => true
  | Op.reset => true
  | Op.reset_new _ _ _ _ => true
  | _ => false

/-- The invalidating mutations the code actually has: the claimed list plus
the public cache-reset methods `reset_shaping` and `reset_layout`. -/
def invalidatingFull (op : Op) (l : BufferLine) : Bool :=
  match op with
  | Op.reset_shaping => true
  | Op.reset_layout => true
  | _ => invalidatingClaimed op l

/-- The states reachable through the public API: fresh lines, any public
operation, and the tail line returned by `split_off`. -/
inductive Reachable : BufferLine → Prop where
  | base (text : Str) (ending : LineEnding) (attrs_list : AttrsList) (shaping : Shaping) :
      Reachable (BufferLine.new text ending attrs_list shaping)
  | step (op : Op) (l : BufferLine) : Reachable l → Reachable (applyOp op l)
  | splitTail (l : BufferLine) (index : Nat) :
      Reachable l → Reachable ((l.split_off index).2)

/-- Cache coherence: a valid layout cache is only ever present together with
a valid shape cache. -/
def GoodCache (l : BufferLine) : Prop :=
  (l.layout_opt.get).isSome = true → (l.shape_opt.get).isSome = true

/-- Spec-side quantity for the decoration-extent claim: the minimum glyph
left edge over a group. -/
def specMinLeft : List LayoutGlyph → ℚ
  | [] => 0
  | g :: gs => gs.foldl (fun m h => min m h.x) g.x

/-- Spec-side quantity for the decoration-extent claim: the maximum glyph
right edge over a group. -/
def specMaxRight : List LayoutGlyph → ℚ
  | [] => 0
  | g :: gs => gs.foldl (fun m h => max m (h.x + h.w)) (g.x + g.w)

/-- A group's glyphs in monotone visual order: each glyph's right edge is at
or before the next glyph's left edge. -/
def MonotoneGlyphs (glyphs : List LayoutGlyph) : Prop :=
  List.Chain' (fun a b => a.x + a.w ≤ b.x) glyphs

/-- Number of cached layout lines of one buffer line (0 when the layout cache
is not valid). -/
def layoutLen (line : BufferLine) : Nat :=
  ((line.layout_opt.get).map List.length).getD 0

/-- Total number of cached layout lines across a list of buffer lines. -/
def totalLayoutLines (lines : List BufferLine) : Nat :=
  (lines.map layoutLen).sum

/-- Remaining layout lines from the iterator's current position (clamped per
line). -/
def itRemaining (it : LayoutRunIter) : Nat :=
  totalLayoutLines (it.lines.drop it.line_i) - it.layout_i

/-- Number of cached layout lines of the iterator's current paragraph line. -/
def layoutLenCur (it : LayoutRunIter) : Nat :=
  ((it.lines[it.line_i]?).map layoutLen).getD 0

/-- Modelled from the spec: line-height override propagation (§4.2) of the
shaping/wrapping collaborator, which is outside the excerpt.  A wrapped line
over text range `[lineStart, lineEnd)` carries the styled span's line height
when its glyphs derive wholly or partly from the span `[spanStart, spanEnd)`,
or — for an empty line — when its position falls strictly inside the span. -/
def lineHeightOverride (spanStart spanEnd : Nat) (spanLineHeight : ℚ)
    (lineStart lineEnd : Nat) : Option ℚ :=
  if lineStart < lineEnd then
    if spanStart < lineEnd ∧ lineStart < spanEnd then some spanLineHeight else none
  else
    if spanStart < lineStart ∧ lineStart < spanEnd then some spanLineHeight else none

/-- A trivial instantiation of the opaque shaping/wrapping collaborators,
used to evaluate the model on concrete inputs. -/
def fsTest : FontSystem where
  build := fun _ _ _ _ s => s
  layout_to_buffer := fun _ _ _ _ _ _ buf _ _ => buf

/-- A concrete attributes list. -/
def attrsA : AttrsList := AttrsList.new ⟨0⟩

/-- A second, different concrete attributes list. -/
def attrsB : AttrsList := AttrsList.new ⟨1⟩

/-- A concrete fresh line. -/
def lineA : BufferLine := BufferLine.new ['a', 'b'] LineEnding.lf attrsA Shaping.advanced

/-- `lineA` after one `layout` call: both caches are valid. -/
def lineLaid : BufferLine :=
  (BufferLine.layout fsTest 16 none Wrap.word Ellipsize.none none 8 Hinting.disabled lineA).2

/-- A concrete decoration descriptor: single underline with 1/2-thickness
metrics at offset 0. -/
def decoA : DecorationData :=
  { text_decoration :=
      { underline := UnderlineStyle.single
        underline_color_opt := none
        strikethrough := false
        strikethrough_color_opt := none
        overline := false
        overline_color_opt := none }
    underline_metrics := { thickness := 1/2, offset := 0 }
    strikethrough_metrics := { thickness := 1/2, offset := 0 } }

/-- A glyph with the given position, width and decoration. -/
def mkGlyph (x w : ℚ) (deco : Option DecorationData) : LayoutGlyph :=
  { start := 0, end_ := 1, x := x, w := w, font_size := 2
    color_opt := none, decoration_data := deco }

/-- A run whose two glyphs overlap out of monotone order: the first is wide
(left edge 0, right edge 10), the second sits inside it (left edge 2, right
edge 3). -/
def runOverlap : LayoutRun :=
  { line_i := 0, text := [], rtl := false
    glyphs := [mkGlyph 0 10 (some decoA), mkGlyph 2 1 (some decoA)]
    decorations := [], line_y := 5, line_top := 0, line_height := 10, line_w := 10 }

/-- A small LTR run with two ordered glyphs, for concrete evaluation. -/
def runSmall : LayoutRun :=
  { line_i := 0, text := ['h', 'i'], rtl := false
    glyphs := [{ start := 0, end_ := 1, x := 0, w := 4, font_size := 2
                 color_opt := none, decoration_data := none },
               { start := 1, end_ := 2, x := 4, w := 4, font_size := 2
                 color_opt := none, decoration_data := none }]
    decorations := [], line_y := 8, line_top := 0, line_height := 10, line_w := 8 }

/-- A concrete line with one cached layout line, for evaluating the
visible-run iterator. -/
def lineCached : BufferLine :=
  { BufferLine.new ['x'] LineEnding.none attrsA Shaping.advanced with
    shape_opt := Cached.used ⟨false, []⟩
    layout_opt := Cached.used
      [{ glyphs := [], decorations := [], line_height_opt := none
         max_ascent := 1, max_descent := 1, w := 0 }] }

/-- A concrete iterator over `[lineCached]` with viewport height 100. -/
def itW : LayoutRunIter := LayoutRunIter.new [lineCached] (some 100) 10 0 0

/-- The run `itW` yields: default line height 10, centering offset 4,
baseline 5. -/
def runW : LayoutRun :=
  { line_i := 0, text := ['x'], rtl := false, glyphs := [], decorations := []
    line_y := 5, line_top := 0, line_height := 10, line_w := 0 }

/-- A layout line whose height override 300 puts it past a viewport of
height 100. -/
def llBig : LayoutLine :=
  { glyphs := [], decorations := [], line_height_opt := some 300
    max_ascent := 0, max_descent := 0, w := 0 }

/-- A line caching the single layout line `llBig`. -/
def lineBig : BufferLine :=
  { BufferLine.new ['y'] LineEnding.none attrsA Shaping.advanced with
    shape_opt := Cached.used ⟨false, []⟩
    layout_opt := Cached.used [llBig] }

/-- An iterator positioned at `lineBig` with viewport height 100. -/
def itBig : LayoutRunIter := LayoutRunIter.new [lineBig] (some 100) 10 0 0

/-- A buffer line of the rich-text scenario: text at byte range
`[lineStart, lineEnd)` of the concatenated text, with one cached layout line
whose override follows the spec-modelled propagation rule for the styled span
`[6, 16)` of line height 48/5. -/
def mkRichLine (text : Str) (lineStart lineEnd : Nat) : BufferLine :=
  { BufferLine.new text LineEnding.lf attrsA Shaping.advanced with
    shape_opt := Cached.used ⟨false, []⟩
    layout_opt := Cached.used
      [{ glyphs := [], decorations := []
         line_height_opt := lineHeightOverride 6 16 (48/5) lineStart lineEnd
         max_ascent := 0, max_descent := 0, w := 0 }] }

/-- The six paragraph lines of `"Before" ++ "\n\n\nSmall\n\n" ++ "After"`,
split at the newlines, with their byte ranges in the concatenated text. -/
def richLines : List BufferLine :=
  [mkRichLine ['B', 'e', 'f', 'o', 'r', 'e'] 0 6,
   mkRichLine [] 7 7,
   mkRichLine [] 8 8,
   mkRichLine ['S', 'm', 'a', 'l', 'l'] 9 14,
   mkRichLine [] 15 15,
   mkRichLine ['A', 'f', 't', 'e', 'r'] 16 21]

theorem Cached.get_set_unused {α : Type} (c : Cached α) : c.set_unused.get = none := by
  cases c <;> rfl

theorem reset_caches_none (l : BufferLine) :
    l.reset.shape_opt.get = none ∧ l.reset.layout_opt.get = none ∧
      l.reset.metadata = none := by
  refine ⟨?_, ?_, rfl⟩ <;>
    simp [BufferLine.reset, BufferLine.reset_shaping, BufferLine.reset_layout,
      Cached.get_set_unused]

/-- C2: `set_text` with input equal to the current text, ending and
attributes list returns `false` and leaves the whole line state unchanged —
in particular neither cache nor the metadata is invalidated; with any
differing input it replaces the content, invalidates both caches and returns
`true`. -/
theorem c2_set_text_idempotence (l : BufferLine) (text : Str) (ending : LineEnding)
    (attrs_list : AttrsList) :
    (text = l.text ∧ ending = l.ending ∧ attrs_list = l.attrs_list →
      l.set_text text ending attrs_list = (false, l)) ∧
    (text ≠ l.text ∨ ending ≠ l.ending ∨ attrs_list ≠ l.attrs_list →
      (l.set_text text ending attrs_list).1 = true ∧
        (l.set_text text ending attrs_list).2.text = text ∧
        (l.set_text text ending attrs_list).2.ending = ending ∧
        (l.set_text text ending attrs_list).2.attrs_list = attrs_list ∧
        ((l.set_text text ending attrs_list).2.shape_opt).get = none ∧
        ((l.set_text text ending attrs_list).2.layout_opt).get = none) := by
  constructor
  · rintro ⟨h1, h2, h3⟩
    simp [BufferLine.set_text, h1, h2, h3]
  · intro h
    rw [BufferLine.set_text, if_pos h]
    refine ⟨rfl, rfl, rfl, rfl, ?_, ?_⟩ <;>
      simp [BufferLine.reset, BufferLine.reset_shaping, BufferLine.reset_layout,
        Cached.get_set_unused]

/-- Witness for C2 at concrete inputs: an identical `set_text` is a no-op on
`lineA`, and a differing one resets it. -/
theorem c2_set_text_idempotence_witness :
    BufferLine.set_text lineA ['a', 'b'] LineEnding.lf attrsA = (false, lineA) ∧
    ((BufferLine.set_text lineA ['c'] LineEnding.lf attrsA).1 = true ∧
      (BufferLine.set_text lineA ['c'] LineEnding.lf attrsA).2.text = ['c'] ∧
      (BufferLine.set_text lineA ['c'] LineEnding.lf attrsA).2.ending = LineEnding.lf ∧
      (BufferLine.set_text lineA ['c'] LineEnding.lf attrsA).2.attrs_list = attrsA ∧
      ((BufferLine.set_text lineA ['c'] LineEnding.lf attrsA).2.shape_opt).get = none ∧
      ((BufferLine.set_text lineA ['c'] LineEnding.lf attrsA).2.layout_opt).get = none) :=
  ⟨(c2_set_text_idempotence lineA ['a', 'b'] LineEnding.lf attrsA).1 (by decide),
   (c2_set_text_idempotence lineA ['c'] LineEnding.lf attrsA).2 (by decide)⟩

/-- C8: `set_align` with a differing alignment invalidates only the layout
cache and returns `true`, leaving shape cache, text, ending, attributes and
metadata unchanged; with the current alignment it changes nothing and returns
`false`; `set_ending` and `set_attrs_list` with differing values invalidate
both caches and return `true`. -/
theorem c8_setter_cache_tiers (l : BufferLine) (a : Option Align) (e : LineEnding)
    (al : AttrsList) :
    (a ≠ l.align →
      (l.set_align a).1 = true ∧
        (l.set_align a).2.layout_opt.get = none ∧
        (l.set_align a).2.shape_opt = l.shape_opt ∧
        (l.set_align a).2.text = l.text ∧
        (l.set_align a).2.ending = l.ending ∧
        (l.set_align a).2.attrs_list = l.attrs_list ∧
        (l.set_align a).2.metadata = l.metadata) ∧
    (a = l.align → l.set_align a = (false, l)) ∧
    (e ≠ l.ending →
      (l.set_ending e).1 = true ∧
        (l.set_ending e).2.shape_opt.get = none ∧
        (l.set_ending e).2.layout_opt.get = none) ∧
    (al ≠ l.attrs_list →
      (l.set_attrs_list al).1 = true ∧
        (l.set_attrs_list al).2.shape_opt.get = none ∧
        (l.set_attrs_list al).2.layout_opt.get = none) := by
  refine ⟨fun h => ?_, fun h => ?_, fun h => ?_, fun h => ?_⟩
  · rw [BufferLine.set_align, if_pos h]
    exact ⟨rfl, by simp [BufferLine.reset_layout, Cached.get_set_unused], rfl, rfl, rfl,
      rfl, rfl⟩
  · rw [BufferLine.set_align, if_neg (by simp [h])]
  · rw [BufferLine.set_ending, if_pos h]
    refine ⟨rfl, ?_, ?_⟩ <;>
      simp [BufferLine.reset_shaping, BufferLine.reset_layout, Cached.get_set_unused]
  · rw [BufferLine.set_attrs_list, if_pos h]
    refine ⟨rfl, ?_, ?_⟩ <;>
      simp [BufferLine.reset_shaping, BufferLine.reset_layout, Cached.get_set_unused]

/-- Witness for C8 at concrete inputs on `lineA`. -/
theorem c8_setter_cache_tiers_witness :
    ((lineA.set_align (some Align.center)).1 = true ∧
      (lineA.set_align (some Align.center)).2.layout_opt.get = none ∧
      (lineA.set_align (some Align.center)).2.shape_opt = lineA.shape_opt ∧
      (lineA.set_align (some Align.center)).2.text = lineA.text ∧
      (lineA.set_align (some Align.center)).2.ending = lineA.ending ∧
      (lineA.set_align (some Align.center)).2.attrs_list = lineA.attrs_list ∧
      (lineA.set_align (some Align.center)).2.metadata = lineA.metadata) ∧
    lineA.set_align none = (false, lineA) ∧
    ((lineA.set_ending LineEnding.crlf).1 = true ∧
      (lineA.set_ending LineEnding.crlf).2.shape_opt.get = none ∧
      (lineA.set_ending LineEnding.crlf).2.layout_opt.get = none) ∧
    ((lineA.set_attrs_list attrsB).1 = true ∧
      (lineA.set_attrs_list attrsB).2.shape_opt.get = none ∧
      (lineA.set_attrs_list attrsB).2.layout_opt.get = none) :=
  ⟨(c8_setter_cache_tiers lineA (some Align.center) LineEnding.crlf attrsB).1 (by decide),
   (c8_setter_cache_tiers lineA none LineEnding.crlf attrsB).2.1 (by decide),
   (c8_setter_cache_tiers lineA none LineEnding.crlf attrsB).2.2.1 (by decide),
   (c8_setter_cache_tiers lineA none LineEnding.crlf attrsB).2.2.2 (by decide)⟩

/-- C6: `split_off i` leaves the original line holding the first `i` text
units with ending `none`, both caches invalidated and metadata cleared, and
returns a tail line holding the rest whose ending, alignment and shaping mode
equal the original's and whose caches start empty. -/
theorem c6_split_off (l : BufferLine) (index : Nat) (h : index ≤ l.text.length) :
    ((l.split_off index).1.text = l.text.take index ∧
      (l.split_off index).1.ending = LineEnding.none ∧
      (l.split_off index).1.shape_opt.get = none ∧
      (l.split_off index).1.layout_opt.get = none ∧
      (l.split_off index).1.metadata = none) ∧
    ((l.split_off index).2.text = l.text.drop index ∧
      (l.split_off index).2.ending = l.ending ∧
      (l.split_off index).2.align = l.align ∧
      (l.split_off index).2.shaping = l.shaping ∧
      (l.split_off index).2.shape_opt = Cached.empty ∧
      (l.split_off index).2.layout_opt = Cached.empty) := by
  refine ⟨⟨rfl, rfl, ?_, ?_, rfl⟩, ⟨rfl, rfl, rfl, rfl, rfl, rfl⟩⟩ <;>
    simp [BufferLine.split_off, BufferLine.reset, BufferLine.reset_shaping,
      BufferLine.reset_layout, Cached.get_set_unused]

/-- Witness for C6: splitting `lineA` at index 1. -/
theorem c6_split_off_witness :
    (1 ≤ lineA.text.length) ∧
    (((lineA.split_off 1).1.text = lineA.text.take 1 ∧
      (lineA.split_off 1).1.ending = LineEnding.none ∧
      (lineA.split_off 1).1.shape_opt.get = none ∧
      (lineA.split_off 1).1.layout_opt.get = none ∧
      (lineA.split_off 1).1.metadata = none) ∧
    ((lineA.split_off 1).2.text = lineA.text.drop 1 ∧
      (lineA.split_off 1).2.ending = lineA.ending ∧
      (lineA.split_off 1).2.align = lineA.align ∧
      (lineA.split_off 1).2.shaping = lineA.shaping ∧
      (lineA.split_off 1).2.shape_opt = Cached.empty ∧
      (lineA.split_off 1).2.layout_opt = Cached.empty)) :=
  ⟨by decide, c6_split_off lineA 1 (by decide)⟩

/-- C7: `split_off i` followed by `append` of the returned tail reconstructs
the original text and the original line ending. -/
theorem c7_split_append_inverse (l : BufferLine) (index : Nat)
    (h : index ≤ l.text.length) :
    ((l.split_off index).1.append (l.split_off index).2).text = l.text ∧
    ((l.split_off index).1.append (l.split_off index).2).ending = l.ending := by
  constructor
  · show l.text.take index ++ l.text.drop index = l.text
    exact List.take_append_drop index l.text
  · rfl

/-- Witness for C7: splitting `lineA` at index 1 and appending back. -/
theorem c7_split_append_inverse_witness :
    (1 ≤ lineA.text.length) ∧
    ((lineA.split_off 1).1.append (lineA.split_off 1).2).text = lineA.text ∧
    ((lineA.split_off 1).1.append (lineA.split_off 1).2).ending = lineA.ending :=
  ⟨by decide, c7_split_append_inverse lineA 1 (by decide)⟩

theorem highlightLoop_inv (run : LayoutRun) (cs ce : Cursor) :
    ∀ (glyphs : List LayoutGlyph) (acc : Option ℚ × Option ℚ),
      (acc.1.isSome = true → acc.2.isSome = true) →
      ((LayoutRun.highlightLoop run cs ce glyphs acc).1.isSome = true →
        (LayoutRun.highlightLoop run cs ce glyphs acc).2.isSome = true)
  | [], _, h => h
  | glyph :: rest, acc, h => by
    rw [LayoutRun.highlightLoop]
    refine highlightLoop_inv run cs ce rest _ ?_
    dsimp only
    split
    · simp
    · split
      · simp
      · exact h

/-- C10: `highlight` never reaches the `expect` panic — whenever an `x_start`
has been recorded an `x_end` has been recorded too — and any returned span
has nonnegative width. -/
theorem c10_highlight_no_panic (run : LayoutRun) (cursor_start cursor_end : Cursor) :
    ∃ res, run.highlight cursor_start cursor_end = Except.ok res ∧
      ∀ x w, res = some (x, w) → 0 ≤ w := by
  have hinv := highlightLoop_inv run cursor_start cursor_end run.glyphs (none, none)
    (by simp)
  rcases hres : LayoutRun.highlightLoop run cursor_start cursor_end run.glyphs
    (none, none) with ⟨xs, xe⟩
  rw [hres] at hinv
  cases xs with
  | none =>
    refine ⟨none, ?_, by simp⟩
    rw [LayoutRun.highlight, hres]
  | some a =>
    cases xe with
    | none => simpa using hinv rfl
    | some b =>
      refine ⟨_, by rw [LayoutRun.highlight, hres], ?_⟩
      intro x w hxw
      by_cases hab : a < b
      · simp only [hab, if_true] at hxw
        cases hxw
        linarith
      · simp only [hab, if_false] at hxw
        cases hxw
        linarith [le_of_not_lt hab]

/-- Witness for C10: `highlight` on a concrete run and cursor range. -/
theorem c10_highlight_no_panic_witness :
    ∃ res, runSmall.highlight ⟨0, 0, Affinity.after⟩ ⟨0, 2, Affinity.before⟩ =
        Except.ok res ∧ ∀ x w, res = some (x, w) → 0 ≤ w :=
  c10_highlight_no_panic runSmall ⟨0, 0, Affinity.after⟩ ⟨0, 2, Affinity.before⟩

theorem monotone_head_bound (g0 : LayoutGlyph) (gs : List LayoutGlyph) :
    MonotoneGlyphs (g0 :: gs) → (∀ g ∈ g0 :: gs, 0 ≤ g.w) →
      ∀ h ∈ gs, g0.x + g0.w ≤ h.x := by
  induction gs generalizing g0 with
  | nil =>
    intro _ _ h hmem
    cases hmem
  | cons g1 gs ih =>
    intro hchain hw h hmem
    rcases List.chain'_cons.mp hchain with ⟨h01, hchain1⟩
    rcases List.mem_cons.mp hmem with rfl | hmem1
    · exact h01
    · have hg1 := ih g1 hchain1 (fun g hg => hw g (List.mem_cons_of_mem _ hg)) h hmem1
      have hw1 : (0 : ℚ) ≤ g1.w := hw g1 (by simp)
      linarith

theorem foldl_min_eq (a : ℚ) :
    ∀ gs : List LayoutGlyph, (∀ h ∈ gs, a ≤ h.x) →
      gs.foldl (fun m h => min m h.x) a = a
  | [], _ => rfl
  | g :: gs, hle => by
    have hag : min a g.x = a := min_eq_left (hle g (by simp))
    rw [List.foldl_cons, hag]
    exact foldl_min_eq a gs fun h hm => hle h (List.mem_cons_of_mem _ hm)

theorem specMinLeft_eq_head (g0 : LayoutGlyph) (gs : List LayoutGlyph)
    (hchain : MonotoneGlyphs (g0 :: gs)) (hw : ∀ g ∈ g0 :: gs, 0 ≤ g.w) :
    specMinLeft (g0 :: gs) = g0.x := by
  rw [specMinLeft]
  refine foldl_min_eq g0.x gs fun h hm => ?_
  have hw0 : (0 : ℚ) ≤ g0.w := hw g0 (by simp)
  have := monotone_head_bound g0 gs hchain hw h hm
  linarith

theorem specMaxRight_eq_last (g0 : LayoutGlyph) :
    ∀ gs : List LayoutGlyph, MonotoneGlyphs (g0 :: gs) →
      (∀ g ∈ g0 :: gs, 0 ≤ g.w) →
      specMaxRight (g0 :: gs) = (gs.getLastD g0).x + (gs.getLastD g0).w
  | [], _, _ => rfl
  | g1 :: gs, hchain, hw => by
    rcases List.chain'_cons.mp hchain with ⟨h01, hchain1⟩
    have hw1 : (0 : ℚ) ≤ g1.w := hw g1 (by simp)
    have hmax : max (g0.x + g0.w) (g1.x + g1.w) = g1.x + g1.w := by
      apply max_eq_right
      linarith
    have htail := specMaxRight_eq_last g1 gs hchain1
      (fun g hg => hw g (List.mem_cons_of_mem _ hg))
    calc specMaxRight (g0 :: g1 :: gs)
        = gs.foldl (fun m h => max m (h.x + h.w)) (max (g0.x + g0.w) (g1.x + g1.w)) := rfl
      _ = gs.foldl (fun m h => max m (h.x + h.w)) (g1.x + g1.w) := by rw [hmax]
      _ = specMaxRight (g1 :: gs) := rfl
      _ = ((g1 :: gs).getLastD g0).x + ((g1 :: gs).getLastD g0).w := by
          rw [htail, List.getLastD_cons]

theorem drawDecorationGroup_rect_extent (run : LayoutRun) (first : LayoutGlyph)
    (rest : List LayoutGlyph) (default_color : Color) :
    ∀ r ∈ drawDecorationGroup run (first :: rest) default_color,
      r.x = ratToI32 first.x ∧
        r.w = ratToU32 ((rest.getLastD first).x + (rest.getLastD first).w - first.x) := by
  intro r hr
  rw [drawDecorationGroup] at hr
  rcases hdd : first.decoration_data with _ | deco
  · rw [hdd] at hr
    simp at hr
  · rw [hdd] at hr
    dsimp only at hr
    set lastG := rest.getLastD first with hlast
    split at hr
    · simp at hr
    · split at hr
      · simp at hr
      · rcases hu : deco.text_decoration.underline <;> rw [hu] at hr <;>
          by_cases hst : deco.text_decoration.strikethrough <;>
          by_cases hov : deco.text_decoration.overline <;>
          simp [hst, hov] at hr <;>
          first
            | (rcases hr with rfl | rfl | rfl | rfl
               all_goals exact ⟨rfl, rfl⟩)
            | (rcases hr with rfl | rfl | rfl
               all_goals exact ⟨rfl, rfl⟩)
            | (rcases hr with rfl | rfl
               all_goals exact ⟨rfl, rfl⟩)
            | (rcases hr with rfl
               all_goals exact ⟨rfl, rfl⟩)
            | subst hr
              exact ⟨rfl, rfl⟩

/-- C5 counterexample: with a group of two overlapping glyphs stored out of
monotone order (first wide: left edge 0 and right edge 10; second inside it:
left edge 2 and right edge 3), `render_decoration` emits a rectangle of width
3 starting at the first glyph's left edge, not the claimed extent from the
group's minimum left edge (0) to its maximum right edge (10). -/
theorem c5_decoration_extent_counterexample :
    renderDecoration runOverlap 7 = [⟨0, 5, 3, 1, 7⟩] ∧
    specMinLeft runOverlap.glyphs = 0 ∧
    specMaxRight runOverlap.glyphs = 10 ∧
    ratToU32 (specMaxRight runOverlap.glyphs - specMinLeft runOverlap.glyphs) = 10 ∧
    (3 : Nat) ≠ 10 := by
  refine ⟨?_, ?_, ?_, ?_, by decide⟩ <;> with_unfolding_all rfl

/-- C5 (amended): for a flushed decoration group whose glyphs are stored in
monotone visual order (each glyph's right edge at or before the next glyph's
left edge, widths nonnegative) — as layout produces them — every emitted
rectangle runs from the group's minimum glyph left edge to its maximum glyph
right edge; groups whose computed width truncates to zero (in particular zero
or negative width) emit no rectangles. -/
theorem c5_decoration_extent_amended (run : LayoutRun) (glyphs : List LayoutGlyph)
    (default_color : Color) (hne : glyphs ≠ [])
    (hmono : MonotoneGlyphs glyphs) (hw : ∀ g ∈ glyphs, 0 ≤ g.w) :
    (∀ r ∈ drawDecorationGroup run glyphs default_color,
      r.x = ratToI32 (specMinLeft glyphs) ∧
        r.w = ratToU32 (specMaxRight glyphs - specMinLeft glyphs)) ∧
    (ratToU32 (specMaxRight glyphs - specMinLeft glyphs) = 0 →
      drawDecorationGroup run glyphs default_color = []) := by
  rcases glyphs with _ | ⟨first, rest⟩
  · exact absurd rfl hne
  · have hmin := specMinLeft_eq_head first rest hmono hw
    have hmax := specMaxRight_eq_last first rest hmono hw
    constructor
    · intro r hr
      have := drawDecorationGroup_rect_extent run first rest default_color r hr
      rw [hmin, hmax]
      exact this
    · intro hzero
      rw [hmin, hmax] at hzero
      rw [drawDecorationGroup]
      rcases hdd : first.decoration_data with _ | deco
      · rfl
      · dsimp only
        split
        · rfl
        · rfl

/-- Witness for the amended C5: a concrete monotone two-glyph group. -/
theorem c5_decoration_extent_amended_witness :
    (∀ r ∈ drawDecorationGroup runOverlap
        [mkGlyph 0 1 (some decoA), mkGlyph 2 1 (some decoA)] 7,
      r.x = ratToI32 (specMinLeft [mkGlyph 0 1 (some decoA), mkGlyph 2 1 (some decoA)]) ∧
        r.w = ratToU32 (specMaxRight [mkGlyph 0 1 (some decoA), mkGlyph 2 1 (some decoA)] -
          specMinLeft [mkGlyph 0 1 (some decoA), mkGlyph 2 1 (some decoA)])) ∧
    (ratToU32 (specMaxRight [mkGlyph 0 1 (some decoA), mkGlyph 2 1 (some decoA)] -
        specMinLeft [mkGlyph 0 1 (some decoA), mkGlyph 2 1 (some decoA)]) = 0 →
      drawDecorationGroup runOverlap
        [mkGlyph 0 1 (some decoA), mkGlyph 2 1 (some decoA)] 7 = []) :=
  c5_decoration_extent_amended runOverlap
    [mkGlyph 0 1 (some decoA), mkGlyph 2 1 (some decoA)] 7
    (by simp)
    (by simp [MonotoneGlyphs, mkGlyph])
    (by simp [mkGlyph])

theorem innerNext_fields (line : BufferLine) (rtl : Bool) :
    ∀ (lls : List LayoutLine) (it : LayoutRunIter),
      (∀ run it',
        LayoutRunIter.innerNext line rtl it lls = LayoutRunIter.InnerStep.yield run it' →
          it'.lines = it.lines ∧ it'.line_i = it.line_i ∧
            it'.height_opt = it.height_opt ∧ it.layout_i < it'.layout_i ∧
            it'.layout_i ≤ it.layout_i + lls.length) ∧
      (∀ it',
        LayoutRunIter.innerNext line rtl it lls = LayoutRunIter.InnerStep.nextLine it' →
          it'.lines = it.lines ∧ it'.line_i = it.line_i ∧ it'.height_opt = it.height_opt)
  | [], it => by
    constructor
    · intro run it' h
      rw [LayoutRunIter.innerNext] at h
      cases h
    · intro it' h
      rw [LayoutRunIter.innerNext] at h
      cases h
      exact ⟨rfl, rfl, rfl⟩
  | ll :: rest, it => by
    constructor
    · intro run it' h
      rw [LayoutRunIter.innerNext] at h
      dsimp only at h
      split at h
      · cases h
      · split at h
        · obtain ⟨h1, h2, h3, h4, h5⟩ := (innerNext_fields line rtl rest _).1 run it' h
          refine ⟨h1, h2, h3, ?_, ?_⟩
          · dsimp only at h4
            omega
          · dsimp only at h5
            simp only [List.length_cons]
            omega
        · cases h
          exact ⟨rfl, rfl, rfl, by dsimp only; omega, by simp only [List.length_cons]; omega⟩
    · intro it' h
      rw [LayoutRunIter.innerNext] at h
      dsimp only at h
      split at h
      · cases h
      · split at h
        · obtain ⟨h1, h2, h3⟩ := (innerNext_fields line rtl rest _).2 it' h
          exact ⟨h1, h2, h3⟩
        · cases h

theorem innerNext_yield_le (H : ℚ) (line : BufferLine) (rtl : Bool) :
    ∀ (lls : List LayoutLine) (it : LayoutRunIter), it.height_opt = some H →
      ∀ run it',
        LayoutRunIter.innerNext line rtl it lls = LayoutRunIter.InnerStep.yield run it' →
        ∃ ll ∈ lls, run.glyphs = ll.glyphs ∧ run.line_y - ll.max_ascent ≤ H
  | [], it, _, run, it' => by
    intro h
    rw [LayoutRunIter.innerNext] at h
    cases h
  | ll :: rest, it, hH, run, it' => by
    intro h
    rw [LayoutRunIter.innerNext] at h
    dsimp only at h
    split at h
    · cases h
    · rename_i hcond
      split at h
      · obtain ⟨ll1, hm, hg, hle⟩ := innerNext_yield_le H line rtl rest _
          (by exact hH) run it' h
        exact ⟨ll1, List.mem_cons_of_mem _ hm, hg, hle⟩
      · cases h
        refine ⟨ll, List.mem_cons_self ll rest, rfl, ?_⟩
        rw [hH] at hcond
        simp only [Option.map_some', Option.getD_some, decide_eq_true_eq] at hcond
        exact le_of_not_lt hcond

theorem outerNext_yield_le (H : ℚ) :
    ∀ (rest : List BufferLine) (it : LayoutRunIter), it.height_opt = some H →
      (∀ x ∈ rest, x ∈ it.lines) →
      ∀ run it', LayoutRunIter.outerNext it rest = some (run, it') →
      ∃ line ∈ it.lines, ∃ layout, line.layout_opt.get = some layout ∧
        ∃ ll ∈ layout, run.glyphs = ll.glyphs ∧ run.line_y - ll.max_ascent ≤ H
  | [], it, _, _, run, it' => by
    intro h
    cases h
  | line :: restLines, it, hH, hsub, run, it' => by
    intro h
    rw [LayoutRunIter.outerNext] at h
    rcases hsh : line.shape_opt.get with _ | shape
    · rw [hsh] at h
      cases h
    · rw [hsh] at h
      rcases hlay : line.layout_opt.get with _ | layout
      · rw [hlay] at h
        cases h
      · rw [hlay] at h
        dsimp only at h
        cases hinner : LayoutRunIter.innerNext line shape.rtl it
            (layout.drop it.layout_i) with
        | yield run0 it0 =>
          rw [hinner] at h
          cases h
          obtain ⟨ll, hm, hg, hle⟩ :=
            innerNext_yield_le H line shape.rtl (layout.drop it.layout_i) it hH run it'
              hinner
          exact ⟨line, hsub line (by simp), layout, hlay, ll,
            List.drop_subset _ _ hm, hg, hle⟩
        | stop =>
          rw [hinner] at h
          cases h
        | nextLine it2 =>
          rw [hinner] at h
          obtain ⟨h1, h2, h3⟩ :=
            (innerNext_fields line shape.rtl (layout.drop it.layout_i) it).2 it2 hinner
          obtain ⟨line1, hm1, rest1⟩ :=
            outerNext_yield_le H restLines _
              (by show it2.height_opt = some H; rw [h3]; exact hH)
              (fun x hx => by
                show x ∈ it2.lines
                rw [h1]
                exact hsub x (List.mem_cons_of_mem _ hx)) run it' h
          have hm1' : line1 ∈ it2.lines := hm1
          rw [h1] at hm1'
          exact ⟨line1, hm1', rest1⟩

theorem outerNext_preserves :
    ∀ (rest : List BufferLine) (it : LayoutRunIter) (run : LayoutRun)
      (it' : LayoutRunIter), LayoutRunIter.outerNext it rest = some (run, it') →
      it'.lines = it.lines ∧ it'.height_opt = it.height_opt
  | [], it, run, it' => by
    intro h
    cases h
  | line :: restLines, it, run, it' => by
    intro h
    rw [LayoutRunIter.outerNext] at h
    rcases hsh : line.shape_opt.get with _ | shape
    · rw [hsh] at h
      cases h
    · rw [hsh] at h
      rcases hlay : line.layout_opt.get with _ | layout
      · rw [hlay] at h
        cases h
      · rw [hlay] at h
        dsimp only at h
        cases hinner : LayoutRunIter.innerNext line shape.rtl it
            (layout.drop it.layout_i) with
        | yield run0 it0 =>
          rw [hinner] at h
          cases h
          obtain ⟨h1, _, h3, _, _⟩ :=
            (innerNext_fields line shape.rtl (layout.drop it.layout_i) it).1 run it'
              hinner
          exact ⟨h1, h3⟩
        | stop =>
          rw [hinner] at h
          cases h
        | nextLine it2 =>
          rw [hinner] at h
          obtain ⟨h1, _, h3⟩ :=
            (innerNext_fields line shape.rtl (layout.drop it.layout_i) it).2 it2 hinner
          obtain ⟨g1, g2⟩ := outerNext_preserves restLines _ run it' h
          exact ⟨g1.trans h1, g2.trans h3⟩

theorem totalLayoutLines_cons (line : BufferLine) (rest : List BufferLine) :
    totalLayoutLines (line :: rest) = layoutLen line + totalLayoutLines rest := by
  simp [totalLayoutLines]

theorem outerNext_measure :
    ∀ (rest : List BufferLine) (it : LayoutRunIter),
      rest = it.lines.drop it.line_i → it.layout_i ≤ layoutLenCur it →
      ∀ run it', LayoutRunIter.outerNext it rest = some (run, it') →
      itRemaining it' < itRemaining it ∧ it'.layout_i ≤ layoutLenCur it'
  | [], it, _, _, run, it' => by
    intro h
    cases h
  | line :: restLines, it, hsync, hwf, run, it' => by
    intro h
    have hhead : it.lines[it.line_i]? = some line := by
      rw [← List.head?_drop, ← hsync]
      rfl
    have hlcur : layoutLenCur it = layoutLen line := by
      rw [layoutLenCur, hhead]
      rfl
    have hremit : itRemaining it =
        (layoutLen line + totalLayoutLines restLines) - it.layout_i := by
      rw [itRemaining, ← hsync, totalLayoutLines_cons]
    rw [LayoutRunIter.outerNext] at h
    rcases hsh : line.shape_opt.get with _ | shape
    · rw [hsh] at h
      cases h
    · rw [hsh] at h
      rcases hlay : line.layout_opt.get with _ | layout
      · rw [hlay] at h
        cases h
      · rw [hlay] at h
        dsimp only at h
        have hlen : layoutLen line = layout.length := by
          rw [layoutLen, hlay]
          rfl
        cases hinner : LayoutRunIter.innerNext line shape.rtl it
            (layout.drop it.layout_i) with
        | yield run0 it0 =>
          rw [hinner] at h
          cases h
          obtain ⟨h1, h2, _, h4, h5⟩ :=
            (innerNext_fields line shape.rtl (layout.drop it.layout_i) it).1 run it'
              hinner
          have hrem' : itRemaining it' =
              (layoutLen line + totalLayoutLines restLines) - it'.layout_i := by
            rw [itRemaining, h1, h2, ← hsync, totalLayoutLines_cons]
          have hlcur' : layoutLenCur it' = layoutLen line := by
            rw [layoutLenCur, h1, h2, hhead]
            rfl
          rw [hrem', hremit, hlcur', hlen]
          rw [hlcur, hlen] at hwf
          rw [List.length_drop] at h5
          constructor
          · omega
          · omega
        | stop =>
          rw [hinner] at h
          cases h
        | nextLine it2 =>
          rw [hinner] at h
          obtain ⟨h1, h2, _⟩ :=
            (innerNext_fields line shape.rtl (layout.drop it.layout_i) it).2 it2 hinner
          have hsync3 : restLines =
              ({ it2 with line_i := it2.line_i + 1, layout_i := 0 } :
                LayoutRunIter).lines.drop
                ({ it2 with line_i := it2.line_i + 1, layout_i := 0 } :
                  LayoutRunIter).line_i := by
            show restLines = it2.lines.drop (it2.line_i + 1)
            rw [h1, h2, ← List.tail_drop, ← hsync]
            rfl
          obtain ⟨g1, g2⟩ := outerNext_measure restLines _ hsync3 (Nat.zero_le _) run it' h
          refine ⟨lt_of_lt_of_le g1 ?_, g2⟩
          have hrem3 : itRemaining
              ({ it2 with line_i := it2.line_i + 1, layout_i := 0 } : LayoutRunIter) =
              totalLayoutLines restLines := by
            rw [itRemaining]
            show totalLayoutLines (it2.lines.drop (it2.line_i + 1)) - 0 = _
            rw [h1, h2, ← List.tail_drop, ← hsync]
            rfl
          rw [hrem3, hremit]
          rw [hlcur] at hwf
          omega

theorem next_preserves (it : LayoutRunIter) (run : LayoutRun) (it' : LayoutRunIter)
    (h : it.next = some (run, it')) :
    it'.lines = it.lines ∧ it'.height_opt = it.height_opt :=
  outerNext_preserves (it.lines.drop it.line_i) it run it' h

theorem collect_yield_le (H : ℚ) :
    ∀ (fuel : Nat) (it : LayoutRunIter), it.height_opt = some H →
      ∀ run ∈ LayoutRunIter.collect fuel it,
      ∃ line ∈ it.lines, ∃ layout, line.layout_opt.get = some layout ∧
        ∃ ll ∈ layout, run.glyphs = ll.glyphs ∧ run.line_y - ll.max_ascent ≤ H
  | 0, it, _, run => by
    intro h
    cases h
  | fuel + 1, it, hH, run => by
    intro hmem
    rw [LayoutRunIter.collect] at hmem
    rcases hnext : it.next with _ | ⟨run0, it2⟩
    · rw [hnext] at hmem
      cases hmem
    · rw [hnext] at hmem
      dsimp only at hmem
      rcases List.mem_cons.mp hmem with rfl | hmem1
      · exact outerNext_yield_le H (it.lines.drop it.line_i) it hH
          (fun x hx => List.drop_subset _ _ hx) run it2 hnext
      · obtain ⟨h1, h2⟩ := next_preserves it run0 it2 hnext
        obtain ⟨line1, hm1, rest1⟩ :=
          collect_yield_le H fuel it2 (by rw [h2]; exact hH) run hmem1
        rw [h1] at hm1
        exact ⟨line1, hm1, rest1⟩

theorem collect_length_le :
    ∀ (fuel : Nat) (it : LayoutRunIter), it.layout_i ≤ layoutLenCur it →
      (LayoutRunIter.collect fuel it).length ≤ itRemaining it
  | 0, it, _ => Nat.zero_le _
  | fuel + 1, it, hwf => by
    rw [LayoutRunIter.collect]
    rcases hnext : it.next with _ | ⟨run0, it2⟩
    · exact Nat.zero_le _
    · dsimp only
      obtain ⟨g1, g2⟩ :=
        outerNext_measure (it.lines.drop it.line_i) it rfl hwf run0 it2 hnext
      have := collect_length_le fuel it2 g2
      simp only [List.length_cons]
      omega

theorem itRemaining_le_total (it : LayoutRunIter) :
    itRemaining it ≤ totalLayoutLines it.lines := by
  refine le_trans (Nat.sub_le _ _) ?_
  exact List.Sublist.sum_le_sum
    (List.Sublist.map layoutLen (List.drop_sublist it.line_i it.lines)) (by simp)

theorem innerNext_cutoff_stop (H : ℚ) (line : BufferLine) (rtl : Bool)
    (ll : LayoutLine) (rest : List LayoutLine) (it : LayoutRunIter)
    (hH : it.height_opt = some H)
    (hcut : (it.line_top - it.scroll) +
      ((ll.line_height_opt.getD it.line_height) - (ll.max_ascent + ll.max_descent)) / 2
        > H) :
    LayoutRunIter.innerNext line rtl it (ll :: rest) = LayoutRunIter.InnerStep.stop := by
  rw [LayoutRunIter.innerNext]
  dsimp only
  rw [hH]
  simp only [Option.map_some', Option.getD_some]
  rw [if_pos]
  exact decide_eq_true (by linarith)

theorem next_cutoff_none (H : ℚ) (it : LayoutRunIter) (line : BufferLine)
    (shape : ShapeLine) (layout : List LayoutLine) (ll : LayoutLine)
    (hH : it.height_opt = some H)
    (hline : it.lines[it.line_i]? = some line)
    (hsh : line.shape_opt.get = some shape)
    (hlay : line.layout_opt.get = some layout)
    (hll : (layout.drop it.layout_i).head? = some ll)
    (hcut : (it.line_top - it.scroll) +
      ((ll.line_height_opt.getD it.line_height) - (ll.max_ascent + ll.max_descent)) / 2
        > H) :
    it.next = none := by
  have hlt : it.line_i < it.lines.length := by
    rcases List.getElem?_eq_some_iff.mp hline with ⟨hlt, _⟩
    exact hlt
  have hdropc : it.lines.drop it.line_i = line :: it.lines.drop (it.line_i + 1) := by
    rw [List.drop_eq_getElem_cons hlt]
    rcases List.getElem?_eq_some_iff.mp hline with ⟨_, hg⟩
    rw [hg]
  rcases hd : layout.drop it.layout_i with _ | ⟨ll0, tail⟩
  · rw [hd] at hll
    cases hll
  · rw [hd] at hll
    have hll0 : ll0 = ll := by
      injection hll
    subst hll0
    rw [LayoutRunIter.next, hdropc, LayoutRunIter.outerNext, hsh, hlay]
    dsimp only
    rw [hd, innerNext_cutoff_stop H line shape.rtl ll0 tail it hH hcut]

/-- C4: for an iterator built with viewport height bound `H`: (1) every run
it yields comes from a cached layout line `ll` with `line_y - ll.max_ascent
≤ H`; (2) when the inner loop reaches a layout line whose
`line_y - max_ascent` exceeds `H` it stops hard, and `next` returns `None`
when the current position is such a line — later lines are not visited; and
(3) over any sequence of `next` calls it yields at most as many runs as the
total number of cached layout lines across all its buffer lines. -/
theorem c4_viewport_cutoff_and_bound (it0 : LayoutRunIter) (H : ℚ)
    (hH : it0.height_opt = some H) (hstart : it0.layout_i = 0) :
    (∀ (fuel : Nat), ∀ run ∈ LayoutRunIter.collect fuel it0,
      ∃ line ∈ it0.lines, ∃ layout, line.layout_opt.get = some layout ∧
        ∃ ll ∈ layout, run.glyphs = ll.glyphs ∧ run.line_y - ll.max_ascent ≤ H) ∧
    (∀ (it : LayoutRunIter) (line : BufferLine) (rtl : Bool) (ll : LayoutLine)
        (rest : List LayoutLine), it.height_opt = some H →
      (it.line_top - it.scroll) +
          ((ll.line_height_opt.getD it.line_height) -
            (ll.max_ascent + ll.max_descent)) / 2 > H →
      LayoutRunIter.innerNext line rtl it (ll :: rest) =
        LayoutRunIter.InnerStep.stop) ∧
    (∀ (it : LayoutRunIter) (line : BufferLine) (shape : ShapeLine)
        (layout : List LayoutLine) (ll : LayoutLine), it.height_opt = some H →
      it.lines[it.line_i]? = some line →
      line.shape_opt.get = some shape →
      line.layout_opt.get = some layout →
      (layout.drop it.layout_i).head? = some ll →
      (it.line_top - it.scroll) +
          ((ll.line_height_opt.getD it.line_height) -
            (ll.max_ascent + ll.max_descent)) / 2 > H →
      it.next = none) ∧
    (∀ fuel : Nat,
      (LayoutRunIter.collect fuel it0).length ≤ totalLayoutLines it0.lines) :=
  ⟨fun fuel run hmem => collect_yield_le H fuel it0 hH run hmem,
   fun it line rtl ll rest hH2 hcut =>
     innerNext_cutoff_stop H line rtl ll rest it hH2 hcut,
   fun it line shape layout ll hH2 h1 h2 h3 h4 hcut =>
     next_cutoff_none H it line shape layout ll hH2 h1 h2 h3 h4 hcut,
   fun fuel =>
     le_trans (collect_length_le fuel it0 (by rw [hstart]; exact Nat.zero_le _))
       (itRemaining_le_total it0)⟩

/-- Witness for C4: concrete applications of all four parts — provenance of
the yielded run over `itW`, the hard stop of the inner loop and of `next` at
the oversized layout line of `itBig`, and the length bound for `itW`. -/
theorem c4_viewport_cutoff_and_bound_witness :
    (∃ line ∈ itW.lines, ∃ layout, line.layout_opt.get = some layout ∧
      ∃ ll ∈ layout, runW.glyphs = ll.glyphs ∧ runW.line_y - ll.max_ascent ≤ 100) ∧
    LayoutRunIter.innerNext lineBig false itBig [llBig] =
      LayoutRunIter.InnerStep.stop ∧
    itBig.next = none ∧
    (LayoutRunIter.collect 3 itW).length ≤ totalLayoutLines itW.lines :=
  have hc := c4_viewport_cutoff_and_bound itW 100 rfl rfl
  have hcb := c4_viewport_cutoff_and_bound itBig 100 rfl rfl
  have hcut : (itBig.line_top - itBig.scroll) +
      ((llBig.line_height_opt.getD itBig.line_height) -
        (llBig.max_ascent + llBig.max_descent)) / 2 > 100 := by
    show (0 : ℚ) - 0 + (300 - (0 + 0)) / 2 > 100
    norm_num
  have hmem : runW ∈ LayoutRunIter.collect 3 itW := by
    have hcoll : LayoutRunIter.collect 3 itW = [runW] := by
      with_unfolding_all rfl
    rw [hcoll]
    exact List.mem_singleton.mpr rfl
  ⟨hc.1 3 runW hmem,
   hcb.2.1 itBig lineBig false llBig [] rfl hcut,
   hcb.2.2.1 itBig lineBig ⟨false, []⟩ [llBig] llBig rfl rfl rfl rfl rfl hcut,
   hc.2.2.2 3⟩

/-- C9: the rich-text scenario "Before" + "\n\n\nSmall\n\n" (span metrics
8.0/1.2, line height 9.6 = 48/5) + "After" with default metrics 32.0/44.0:
with the spec-modelled line-height-override propagation, the visible-run
iterator yields exactly 6 runs whose line heights are
[44, 9.6, 9.6, 9.6, 9.6, 44], within tolerance 1/10 — the empty layout lines
strictly inside the styled span carry the span's line height, symmetrically
at the start and the end of the styled run. -/
theorem c9_rich_text_line_heights :
    ((LayoutRunIter.collect 7 (LayoutRunIter.new richLines (some 500) 44 0 0)).map
        (fun run => run.line_height)) = [44, 48/5, 48/5, 48/5, 48/5, 44] ∧
    ((LayoutRunIter.collect 7 (LayoutRunIter.new richLines (some 500) 44 0 0)).map
        (fun run => run.line_height)).length = 6 ∧
    (∀ p ∈ List.zip
        ((LayoutRunIter.collect 7 (LayoutRunIter.new richLines (some 500) 44 0 0)).map
          (fun run => run.line_height))
        [(44 : ℚ), 48/5, 48/5, 48/5, 48/5, 44],
      |p.1 - p.2| < 1/10) := by
  have hcoll :
      ((LayoutRunIter.collect 7 (LayoutRunIter.new richLines (some 500) 44 0 0)).map
        (fun run => run.line_height)) = [44, 48/5, 48/5, 48/5, 48/5, 44] := by
    with_unfolding_all rfl
  refine ⟨hcoll, by rw [hcoll]; rfl, ?_⟩
  intro p hp
  rw [hcoll] at hp
  fin_cases hp <;> norm_num

/-- C3 counterexample: `set_ending` with a differing ending invalidates the
shape and layout caches, yet the metadata survives — after it, `metadata` is
still `some 5`, not `none` as the claim states. -/
theorem c3_metadata_counterexample :
    ((lineA.set_metadata 5).set_ending LineEnding.crlf).1 = true ∧
    ((lineA.set_metadata 5).set_ending LineEnding.crlf).2.shape_opt.get = none ∧
    ((lineA.set_metadata 5).set_ending LineEnding.crlf).2.layout_opt.get = none ∧
    ((lineA.set_metadata 5).set_ending LineEnding.crlf).2.metadata = some 5 := by
  decide

/-- C3 (amended): only the operations that perform a full line reset —
`set_text` with differing input, `append`, `split_off`, `reset` (and
`reset_new`) — clear the metadata; `set_ending` and `set_attrs_list` with
differing values invalidate the shape and layout caches but leave the
metadata unchanged. -/
theorem c3_metadata_clearing_amended (l : BufferLine) (e : LineEnding)
    (al : AttrsList) (text : Str) (ending : LineEnding) (other : BufferLine)
    (index : Nat) (text2 : Str) (ending2 : LineEnding) (al2 : AttrsList)
    (shaping2 : Shaping) :
    (e ≠ l.ending →
      (l.set_ending e).2.shape_opt.get = none ∧
        (l.set_ending e).2.layout_opt.get = none ∧
        (l.set_ending e).2.metadata = l.metadata) ∧
    (al ≠ l.attrs_list →
      (l.set_attrs_list al).2.shape_opt.get = none ∧
        (l.set_attrs_list al).2.layout_opt.get = none ∧
        (l.set_attrs_list al).2.metadata = l.metadata) ∧
    (text ≠ l.text ∨ ending ≠ l.ending ∨ al ≠ l.attrs_list →
      (l.set_text text ending al).2.metadata = none) ∧
    (l.append other).metadata = none ∧
    (l.split_off index).1.metadata = none ∧
    l.reset.metadata = none ∧
    (l.reset_new text2 ending2 al2 shaping2).metadata = none := by
  refine ⟨fun h => ?_, fun h => ?_, fun h => ?_, rfl, rfl, rfl, rfl⟩
  · rw [BufferLine.set_ending, if_pos h]
    refine ⟨?_, ?_, rfl⟩ <;>
      simp [BufferLine.reset_shaping, BufferLine.reset_layout, Cached.get_set_unused]
  · rw [BufferLine.set_attrs_list, if_pos h]
    refine ⟨?_, ?_, rfl⟩ <;>
      simp [BufferLine.reset_shaping, BufferLine.reset_layout, Cached.get_set_unused]
  · rw [BufferLine.set_text, if_pos h]
    rfl

theorem shape_state (fs : FontSystem) (tab_width : Nat) (l : BufferLine) :
    ((BufferLine.shape fs tab_width l).2.shape_opt.get).isSome = true ∧
    (l.shape_opt.get.isSome = true → (BufferLine.shape fs tab_width l).2 = l) ∧
    (l.shape_opt.is_unused = true →
      ((BufferLine.shape fs tab_width l).2.layout_opt.get = none)) := by
  cases h : l.shape_opt <;> cases h2 : l.layout_opt <;>
    simp [BufferLine.shape, Cached.is_unused, Cached.take_unused, Cached.set_used,
      Cached.set_unused, Cached.get, h, h2]

theorem layout_state (fs : FontSystem) (font_size : ℚ) (width_opt : Option ℚ)
    (wrap : Wrap) (ellipsize : Ellipsize) (match_mono_width : Option ℚ)
    (tab_width : Nat) (hinting : Hinting) (l : BufferLine) (hg : GoodCache l) :
    ((BufferLine.layout fs font_size width_opt wrap ellipsize match_mono_width
        tab_width hinting l).2.shape_opt.get).isSome = true ∧
    ((BufferLine.layout fs font_size width_opt wrap ellipsize match_mono_width
        tab_width hinting l).2.layout_opt.get).isSome = true := by
  cases h : l.layout_opt with
  | used v =>
    have hs : (l.shape_opt.get).isSome = true := hg (by simp [h, Cached.get])
    refine ⟨?_, ?_⟩
    · simp only [BufferLine.layout, Cached.is_unused, h]
      exact hs
    · simp [BufferLine.layout, Cached.is_unused, h, Cached.get]
  | empty =>
    cases hsh : l.shape_opt <;>
      simp [BufferLine.layout, BufferLine.shape, Cached.is_unused, Cached.take_unused,
        Cached.set_used, Cached.set_unused, Cached.get, h, hsh]
  | unused v =>
    cases hsh : l.shape_opt <;>
      simp [BufferLine.layout, BufferLine.shape, Cached.is_unused, Cached.take_unused,
        Cached.set_used, Cached.set_unused, Cached.get, h, hsh]

theorem cache_preserved (op : Op) (l : BufferLine)
    (hs : (l.shape_opt.get).isSome = true) (hl : (l.layout_opt.get).isSome = true)
    (hni : invalidatingFull op l = false) :
    ((applyOp op l).shape_opt.get).isSome = true ∧
    ((applyOp op l).layout_opt.get).isSome = true := by
  cases op with
  | set_text t e al =>
    have hcond : ¬(t ≠ l.text ∨ e ≠ l.ending ∨ al ≠ l.attrs_list) := by
      simpa [invalidatingFull, invalidatingClaimed] using hni
    simp [applyOp, BufferLine.set_text, if_neg hcond, hs, hl]
  | set_ending e =>
    have hcond : ¬(e ≠ l.ending) := by
      simpa [invalidatingFull, invalidatingClaimed] using hni
    simp [applyOp, BufferLine.set_ending, if_neg hcond, hs, hl]
  | set_attrs_list al =>
    have hcond : ¬(al ≠ l.attrs_list) := by
      simpa [invalidatingFull, invalidatingClaimed] using hni
    simp [applyOp, BufferLine.set_attrs_list, if_neg hcond, hs, hl]
  | set_align a =>
    have hcond : ¬(a ≠ l.align) := by
      simpa [invalidatingFull, invalidatingClaimed] using hni
    simp [applyOp, BufferLine.set_align, if_neg hcond, hs, hl]
  | append other => simp [invalidatingFull, invalidatingClaimed] at hni
  | split_off i => simp [invalidatingFull, invalidatingClaimed] at hni
  | reset => simp [invalidatingFull, invalidatingClaimed] at hni
  | reset_new t e al sh => simp [invalidatingFull, invalidatingClaimed] at hni
  | reset_shaping => simp [invalidatingFull] at hni
  | reset_layout => simp [invalidatingFull] at hni
  | shape fs tab =>
    have heq : (BufferLine.shape fs tab l).2 = l := (shape_state fs tab l).2.1 hs
    simp [applyOp, heq, hs, hl]
  | layout fs fsz w wr el mono tab h =>
    have hu : l.layout_opt.is_unused = false := by
      cases hc : l.layout_opt <;> simp [Cached.get, hc] at hl ⊢ <;> rfl
    simp [applyOp, BufferLine.layout, hu, hs, hl]
  | set_metadata m => simp [applyOp, BufferLine.set_metadata, hs, hl]

theorem reachable_goodCache (l : BufferLine) (hr : Reachable l) : GoodCache l := by
  induction hr with
  | base text ending attrs_list shaping =>
    intro h
    simp [BufferLine.new, Cached.get] at h
  | splitTail l index _ _ =>
    intro h
    simp [BufferLine.split_off, BufferLine.new, Cached.get] at h
  | step op l _ ih =>
    cases op with
    | set_text t e al =>
      by_cases hc : t ≠ l.text ∨ e ≠ l.ending ∨ al ≠ l.attrs_list
      · intro h
        simp [applyOp, BufferLine.set_text, if_pos hc, BufferLine.reset,
          BufferLine.reset_shaping, BufferLine.reset_layout, Cached.get_set_unused] at h
      · simpa [applyOp, BufferLine.set_text, if_neg hc] using ih
    | set_ending e =>
      by_cases hc : e ≠ l.ending
      · intro h
        simp [applyOp, BufferLine.set_ending, if_pos hc, BufferLine.reset_shaping,
          BufferLine.reset_layout, Cached.get_set_unused] at h
      · simpa [applyOp, BufferLine.set_ending, if_neg hc] using ih
    | set_attrs_list al =>
      by_cases hc : al ≠ l.attrs_list
      · intro h
        simp [applyOp, BufferLine.set_attrs_list, if_pos hc, BufferLine.reset_shaping,
          BufferLine.reset_layout, Cached.get_set_unused] at h
      · simpa [applyOp, BufferLine.set_attrs_list, if_neg hc] using ih
    | set_align a =>
      by_cases hc : a ≠ l.align
      · intro h
        simp [applyOp, BufferLine.set_align, if_pos hc, BufferLine.reset_layout,
          Cached.get_set_unused] at h
      · simpa [applyOp, BufferLine.set_align, if_neg hc] using ih
    | append other =>
      intro h
      simp [applyOp, BufferLine.append, BufferLine.reset, BufferLine.reset_shaping,
        BufferLine.reset_layout, Cached.get_set_unused] at h
    | split_off i =>
      intro h
      simp [applyOp, BufferLine.split_off, BufferLine.reset, BufferLine.reset_shaping,
        BufferLine.reset_layout, Cached.get_set_unused] at h
    | reset =>
      intro h
      simp [applyOp, BufferLine.reset, BufferLine.reset_shaping, BufferLine.reset_layout,
        Cached.get_set_unused] at h
    | reset_new t e al sh =>
      intro h
      simp [applyOp, BufferLine.reset_new, Cached.get_set_unused] at h
    | reset_shaping =>
      intro h
      simp [applyOp, BufferLine.reset_shaping, BufferLine.reset_layout,
        Cached.get_set_unused] at h
    | reset_layout =>
      intro h
      simp [applyOp, BufferLine.reset_layout, Cached.get_set_unused] at h
    | shape fs tab =>
      cases hsh : l.shape_opt with
      | used v =>
        have heq : (BufferLine.shape fs tab l).2 = l :=
          (shape_state fs tab l).2.1 (by simp [hsh, Cached.get])
        simpa [applyOp, heq] using ih
      | empty =>
        intro h
        rw [applyOp, (shape_state fs tab l).2.2 (by simp [hsh, Cached.is_unused])] at h
        simp at h
      | unused v =>
        intro h
        rw [applyOp, (shape_state fs tab l).2.2 (by simp [hsh, Cached.is_unused])] at h
        simp at h
    | layout fs fsz w wr el mono tab hnt =>
      cases hc : l.layout_opt with
      | used v =>
        have hu : l.layout_opt.is_unused = false := by simp [hc, Cached.is_unused]
        intro h
        rw [applyOp] at h ⊢
        rw [BufferLine.layout] at h ⊢
        simp only [hu] at h ⊢
        exact ih (by simpa [hc] using h)
      | empty =>
        intro _
        exact And.left (layout_state fs fsz w wr el mono tab hnt l
          (fun hlay => by simp [hc, Cached.get] at hlay))
      | unused v =>
        intro _
        exact And.left (layout_state fs fsz w wr el mono tab hnt l
          (fun hlay => by simp [hc, Cached.get] at hlay))
    | set_metadata m =>
      simpa [applyOp, BufferLine.set_metadata] using ih

/-- C1 counterexample: `reset_layout` is a public operation outside the
claim's list of invalidating mutations, yet after a `layout` call it makes
`layout_opt` return `None`. -/
theorem c1_cache_validity_counterexample :
    (lineLaid.shape_opt.get).isSome = true ∧
    (lineLaid.layout_opt.get).isSome = true ∧
    invalidatingClaimed Op.reset_layout lineLaid = false ∧
    ((applyOp Op.reset_layout lineLaid).layout_opt.get).isSome = false :=
  ⟨rfl, rfl, rfl, rfl⟩

/-- C1 (amended): after a `layout` call on any cache-coherent line both
caches are populated; they remain populated under every subsequent operation
that is not an invalidating mutation, where the invalidating mutations are
the claim's list extended with the public cache-reset methods `reset_shaping`
and `reset_layout`; and every state reachable through the public API is
cache-coherent (a populated layout cache implies a populated shape cache). -/
theorem c1_cache_validity_amended :
    (∀ (fs : FontSystem) (font_size : ℚ) (width_opt : Option ℚ) (wrap : Wrap)
        (ellipsize : Ellipsize) (match_mono_width : Option ℚ) (tab_width : Nat)
        (hinting : Hinting) (l : BufferLine), GoodCache l →
      ((BufferLine.layout fs font_size width_opt wrap ellipsize match_mono_width
          tab_width hinting l).2.shape_opt.get).isSome = true ∧
      ((BufferLine.layout fs font_size width_opt wrap ellipsize match_mono_width
          tab_width hinting l).2.layout_opt.get).isSome = true) ∧
    (∀ (op : Op) (l : BufferLine),
      (l.shape_opt.get).isSome = true → (l.layout_opt.get).isSome = true →
      invalidatingFull op l = false →
      ((applyOp op l).shape_opt.get).isSome = true ∧
      ((applyOp op l).layout_opt.get).isSome = true) ∧
    (∀ l : BufferLine, Reachable l → GoodCache l) :=
  ⟨fun fs fsz w wr el mono tab h l hg => layout_state fs fsz w wr el mono tab h l hg,
   fun op l hs hl hni => cache_preserved op l hs hl hni,
   fun l hr => reachable_goodCache l hr⟩

/-- Witness for the amended C1: concrete applications of all three parts. -/
theorem c1_cache_validity_amended_witness :
    (((BufferLine.layout fsTest 16 none Wrap.word Ellipsize.none none 8
        Hinting.disabled lineA).2.shape_opt.get).isSome = true ∧
      ((BufferLine.layout fsTest 16 none Wrap.word Ellipsize.none none 8
        Hinting.disabled lineA).2.layout_opt.get).isSome = true) ∧
    (((applyOp (Op.set_metadata 3) lineLaid).shape_opt.get).isSome = true ∧
      ((applyOp (Op.set_metadata 3) lineLaid).layout_opt.get).isSome = true) ∧
    GoodCache (BufferLine.new [] LineEnding.none attrsA Shaping.basic) :=
  ⟨c1_cache_validity_amended.1 fsTest 16 none Wrap.word Ellipsize.none none 8
      Hinting.disabled lineA (fun h => by simp [lineA, BufferLine.new, Cached.get] at h),
   c1_cache_validity_amended.2.1 (Op.set_metadata 3) lineLaid rfl rfl rfl,
   c1_cache_validity_amended.2.2 _
     (Reachable.base [] LineEnding.none attrsA Shaping.basic)⟩

/-- Witness for the amended C3 at concrete inputs on `lineA`. -/
theorem c3_metadata_clearing_amended_witness :
    ((lineA.set_ending LineEnding.crlf).2.shape_opt.get = none ∧
      (lineA.set_ending LineEnding.crlf).2.layout_opt.get = none ∧
      (lineA.set_ending LineEnding.crlf).2.metadata = lineA.metadata) ∧
    ((lineA.set_attrs_list attrsB).2.shape_opt.get = none ∧
      (lineA.set_attrs_list attrsB).2.layout_opt.get = none ∧
      (lineA.set_attrs_list attrsB).2.metadata = lineA.metadata) ∧
    (lineA.set_text ['c'] LineEnding.lf attrsB).2.metadata = none ∧
    (lineA.append lineA).metadata = none ∧
    (lineA.split_off 1).1.metadata = none ∧
    lineA.reset.metadata = none ∧
    (lineA.reset_new [] LineEnding.none attrsA Shaping.basic).metadata = none :=
  have h := c3_metadata_clearing_amended lineA LineEnding.crlf attrsB ['c']
    LineEnding.lf lineA 1 [] LineEnding.none attrsA Shaping.basic
  ⟨h.1 (by decide), h.2.1 (by decide), h.2.2.1 (by decide), h.2.2.2.1,
    h.2.2.2.2.1, h.2.2.2.2.2.1, h.2.2.2.2.2.2⟩

end CosmicText
